import Mathlib

/-!
Shallow embedding of `scripts/generate_meta_instance.py`, a generator of
clustered QAP (quadratic assignment problem) test instances, together with
proofs of the behavioural properties stated in the design document.

The Python program draws from the module-global `random` stream (a Mersenne
Twister).  The embedding models that stream explicitly: the global state is a
pair of the seed installed by the last `random.seed` call and the number of
draws consumed since then, and the value of the k-th draw after seeding is a
fixed arithmetic function `rawDraw seed k` standing in for the Mersenne
Twister output (the design document requires reproducibility only relative to
a reference using the same PRNG algorithm, so any fixed deterministic stream
is a faithful model).  Every `random.randint` / `random.random` call consumes
exactly one position of the stream, mirroring one library call each.
-/

namespace QAPGen

/-- The module-global state of the Python `random` module: the seed installed
by the last `random.seed` call and how many draws have been consumed since. -/
structure RandState where
  seed : Nat
  idx : Nat
deriving DecidableEq, Repr

/-- Stand-in for the Mersenne Twister: the raw 64-bit output of the seeded
stream at draw index `idx`.  Any fixed deterministic function works here; a
linear congruential mix keeps kernel evaluation cheap. -/
def rawDraw (seed idx : Nat) : Nat :=
  ((seed + 1) * 6364136223846793005 + (idx + 1) * 1442695040888963407) % 2 ^ 64

/-- `random.seed(s)`: replaces the global stream state wholesale. -/
def pySeed (newSeed : Nat) (_g : RandState) : RandState := ⟨newSeed, 0⟩

/-- `random.randint(lo, hi)`: one uniform integer in `[lo, hi]`, consuming one
draw of the stream. -/
def pyRandint (lo hi : Nat) (s : RandState) : Nat × RandState :=
  (lo + rawDraw s.seed s.idx % (hi + 1 - lo), ⟨s.seed, s.idx + 1⟩)

/-- `random.random()`: one uniform float in `[0,1)`, consuming one draw.  The
result is returned as its 53-bit numerator `r`, the float being `r / 2^53`
(exactly the resolution CPython uses). -/
def pyRandom (s : RandState) : Nat × RandState :=
  (rawDraw s.seed s.idx % 2 ^ 53, ⟨s.seed, s.idx + 1⟩)

/-- The source test `random.random() < 0.05` on the 53-bit numerator `r`.
`r * 20 < 2 ^ 53` says `r / 2^53 < 1/20`; over the integers this picks out
exactly the set `r ≤ 450359962737049`, which coincides with the set picked
out by comparing against the IEEE double nearest `0.05`
(`3602879701896397 / 2^56`), so the rational model loses nothing. -/
def rareFlow (r : Nat) : Prop := r * 20 < 2 ^ 53

instance (r : Nat) : Decidable (rareFlow r) := by unfold rareFlow; infer_instance

/-- `cluster_of[i]` as the source computes it: `i * clusters // n`. -/
def clusterOfIdx (n clusters i : Nat) : Nat := i * clusters / n

/-- The source line `cluster_of = [i * clusters // n for i in range(n)]`. -/
def cluster_of (n clusters : Nat) : List Nat :=
  (List.range n).map (clusterOfIdx n clusters)

/-- One cell of the distance matrix: the body of the inner loop building `D`.
`co` is the cluster assignment (as a function; for indices below `n` it agrees
with list indexing into `cluster_of`, see `cluster_of_getD`). -/
def distCell (co : Nat → Nat) (i j : Nat) (s : RandState) : Nat × RandState :=
  if i = j then (0, s)
  else if co i = co j then
    let p := pyRandint 0 9 s
    (1 + p.1, p.2)
  else
    let cd := ((co i : Int) - (co j : Int)).natAbs
    let p := pyRandint 0 19 s
    (30 + cd * 10 + p.1, p.2)

/-- One cell of the flow matrix: the body of the inner loop building `F`. -/
def flowCell (co : Nat → Nat) (i j : Nat) (s : RandState) : Nat × RandState :=
  if i = j then (0, s)
  else if co i = co j then
    pyRandint 80 200 s
  else
    let p := pyRandom s
    if rareFlow p.1 then pyRandint 120 220 p.2
    else pyRandint 5 80 p.2

/-- Inner loop `for j in range(...)`: builds `k` cells starting at column `j`,
threading the stream state left to right. -/
def genRowFrom (cell : Nat → RandState → Nat × RandState) :
    Nat → Nat → RandState → List Nat × RandState
  | 0, _, s => ([], s)
  | k + 1, j, s =>
    let p := cell j s
    let q := genRowFrom cell k (j + 1) p.2
    (p.1 :: q.1, q.2)

/-- Outer loop `for i in range(...)`: builds `k` rows of `ncols` cells each,
row-major, threading the stream state. -/
def genMatFrom (cell : Nat → Nat → RandState → Nat × RandState) (ncols : Nat) :
    Nat → Nat → RandState → List (List Nat) × RandState
  | 0, _, s => ([], s)
  | k + 1, i, s =>
    let p := genRowFrom (cell i) ncols 0 s
    let q := genMatFrom cell ncols k (i + 1) p.2
    (p.1 :: q.1, q.2)

/-- The body of `generate(n, clusters, seed)` as the source executes it
against the global stream `g`: reseed, build `D`, then build `F`, returning
the matrices together with the final global stream state. -/
def pyGenerate (g : RandState) (n clusters seed : Nat) :
    (List (List Nat) × List (List Nat)) × RandState :=
  let s0 := pySeed seed g
  let co := clusterOfIdx n clusters
  let pD := genMatFrom (distCell co) n n 0 s0
  let pF := genMatFrom (flowCell co) n n 0 pD.2
  ((pD.1, pF.1), pF.2)

/-- `generate(n, clusters, seed)` as a value: the pair `(D, F)`. -/
def generate (n clusters seed : Nat) : List (List Nat) × List (List Nat) :=
  (pyGenerate ⟨0, 0⟩ n clusters seed).1

/-- Matrix access `M[i][j]` (with default `0` / `[]`, only used in bounds). -/
def entry (M : List (List Nat)) (i j : Nat) : Nat := (M.getD i []).getD j 0

/-! ### Generic facts about the loop combinators -/

theorem pyRandint_ge (lo hi : Nat) (s : RandState) : lo ≤ (pyRandint lo hi s).1 := by
  simp [pyRandint]

theorem pyRandint_le (lo hi : Nat) (s : RandState) (h : lo ≤ hi) :
    (pyRandint lo hi s).1 ≤ hi := by
  have hpos : 0 < hi + 1 - lo := by omega
  have := Nat.mod_lt (rawDraw s.seed s.idx) hpos
  simp only [pyRandint]
  omega

theorem genRowFrom_length (cell : Nat → RandState → Nat × RandState) :
    ∀ (k j : Nat) (s : RandState), ((genRowFrom cell k j s).1).length = k := by
  intro k
  induction k with
  | zero => intro j s; simp [genRowFrom]
  | succ m ih => intro j s; simp [genRowFrom, ih]

theorem genRowFrom_getD (cell : Nat → RandState → Nat × RandState) :
    ∀ (k j : Nat) (s : RandState) (m : Nat), m < k →
      ∃ t : RandState, ((genRowFrom cell k j s).1).getD m 0 = (cell (j + m) t).1 := by
  intro k
  induction k with
  | zero => intro j s m hm; omega
  | succ n ih =>
    intro j s m hm
    cases m with
    | zero => exact ⟨s, by simp [genRowFrom]⟩
    | succ m' =>
      obtain ⟨t, ht⟩ := ih (j + 1) (cell j s).2 m' (by omega)
      refine ⟨t, ?_⟩
      simpa [genRowFrom, Nat.add_assoc, Nat.add_comm 1 m'] using ht

theorem genMatFrom_length (cell : Nat → Nat → RandState → Nat × RandState) (ncols : Nat) :
    ∀ (k i : Nat) (s : RandState), ((genMatFrom cell ncols k i s).1).length = k := by
  intro k
  induction k with
  | zero => intro i s; simp [genMatFrom]
  | succ m ih => intro i s; simp [genMatFrom, ih]

theorem genMatFrom_rows (cell : Nat → Nat → RandState → Nat × RandState) (ncols : Nat) :
    ∀ (k i : Nat) (s : RandState), ∀ row ∈ (genMatFrom cell ncols k i s).1,
      row.length = ncols := by
  intro k
  induction k with
  | zero => intro i s row h; simp [genMatFrom] at h
  | succ m ih =>
    intro i s row h
    simp only [genMatFrom, List.mem_cons] at h
    rcases h with h | h
    · subst h; exact genRowFrom_length _ _ _ _
    · exact ih _ _ _ h

theorem genMatFrom_getD (cell : Nat → Nat → RandState → Nat × RandState) (ncols : Nat) :
    ∀ (k i : Nat) (s : RandState) (m : Nat), m < k →
      ∃ t : RandState, ((genMatFrom cell ncols k i s).1).getD m [] =
        (genRowFrom (cell (i + m)) ncols 0 t).1 := by
  intro k
  induction k with
  | zero => intro i s m hm; omega
  | succ n ih =>
    intro i s m hm
    cases m with
    | zero => exact ⟨s, by simp [genMatFrom]⟩
    | succ m' =>
      obtain ⟨t, ht⟩ :=
        ih (i + 1) (genRowFrom (cell i) ncols 0 s).2 m' (by omega)
      refine ⟨t, ?_⟩
      simpa [genMatFrom, Nat.add_assoc, Nat.add_comm 1 m'] using ht

/-- Every in-range cell of a generated matrix is the output of the cell
function at its own indices, for some stream state. -/
theorem genMatFrom_entry (cell : Nat → Nat → RandState → Nat × RandState)
    (n : Nat) (s : RandState) (i j : Nat) (hi : i < n) (hj : j < n) :
    ∃ t : RandState, entry (genMatFrom cell n n 0 s).1 i j = (cell i j t).1 := by
  obtain ⟨t₁, ht₁⟩ := genMatFrom_getD cell n n 0 s i hi
  obtain ⟨t₂, ht₂⟩ := genRowFrom_getD (cell (0 + i)) n 0 t₁ j hj
  refine ⟨t₂, ?_⟩
  simp only [entry, ht₁, ht₂]
  simp

/-- The distance matrix of `generate` unfolded to its loop combinator. -/
theorem generate_fst (n c seed : Nat) :
    (generate n c seed).1 =
      (genMatFrom (distCell (clusterOfIdx n c)) n n 0 ⟨seed, 0⟩).1 := by
  simp [generate, pyGenerate, pySeed]

/-- The flow matrix of `generate` unfolded to its loop combinator. -/
theorem generate_snd (n c seed : Nat) :
    (generate n c seed).2 =
      (genMatFrom (flowCell (clusterOfIdx n c)) n n 0
        (genMatFrom (distCell (clusterOfIdx n c)) n n 0 ⟨seed, 0⟩).2).1 := by
  simp [generate, pyGenerate, pySeed]

/-! ### Facts about a single cell -/

theorem distCell_diag (co : Nat → Nat) (i : Nat) (s : RandState) :
    distCell co i i s = (0, s) := by
  simp [distCell]

theorem flowCell_diag (co : Nat → Nat) (i : Nat) (s : RandState) :
    flowCell co i i s = (0, s) := by
  simp [flowCell]

theorem distCell_same (co : Nat → Nat) (i j : Nat) (s : RandState)
    (hij : i ≠ j) (hc : co i = co j) :
    1 ≤ (distCell co i j s).1 ∧ (distCell co i j s).1 ≤ 10 := by
  have h9 := pyRandint_le 0 9 s (by omega)
  simp only [distCell, if_neg hij, if_pos hc]
  omega

theorem distCell_diff (co : Nat → Nat) (i j : Nat) (s : RandState)
    (hij : i ≠ j) (hc : co i ≠ co j) :
    30 + ((co i : Int) - (co j : Int)).natAbs * 10 ≤ (distCell co i j s).1 ∧
      (distCell co i j s).1 ≤ 30 + ((co i : Int) - (co j : Int)).natAbs * 10 + 19 := by
  have h19 := pyRandint_le 0 19 s (by omega)
  simp only [distCell, if_neg hij, if_neg hc]
  omega

theorem flowCell_same (co : Nat → Nat) (i j : Nat) (s : RandState)
    (hij : i ≠ j) (hc : co i = co j) :
    80 ≤ (flowCell co i j s).1 ∧ (flowCell co i j s).1 ≤ 200 := by
  have hlo := pyRandint_ge 80 200 s
  have hhi := pyRandint_le 80 200 s (by omega)
  simp only [flowCell, if_neg hij, if_pos hc]
  omega

theorem flowCell_diff (co : Nat → Nat) (i j : Nat) (s : RandState)
    (hij : i ≠ j) (hc : co i ≠ co j) :
    (5 ≤ (flowCell co i j s).1 ∧ (flowCell co i j s).1 ≤ 80) ∨
      (120 ≤ (flowCell co i j s).1 ∧ (flowCell co i j s).1 ≤ 220) := by
  simp only [flowCell, if_neg hij, if_neg hc]
  by_cases hr : rareFlow (pyRandom s).1
  · right
    rw [if_pos hr]
    exact ⟨pyRandint_ge _ _ _, pyRandint_le _ _ _ (by omega)⟩
  · left
    rw [if_neg hr]
    exact ⟨pyRandint_ge _ _ _, pyRandint_le _ _ _ (by omega)⟩

/-! ### Claim theorems -/

/-- C1.  Determinism: two independent calls of `generate(size, clusters,
seed)`, started from arbitrary (distinct) ambient PRNG states `g₁`, `g₂`,
produce identical distance and flow matrices — the output is a function of
`(size, clusters, seed)` alone, because `random.seed(seed)` overwrites the
stream state before any draw. -/
theorem generate_deterministic (g₁ g₂ : RandState) (n c seed : Nat)
    (hn : 1 ≤ n) (hc : 1 ≤ c) :
    (pyGenerate g₁ n c seed).1.1 = (pyGenerate g₂ n c seed).1.1 ∧
      (pyGenerate g₁ n c seed).1.2 = (pyGenerate g₂ n c seed).1.2 := by
  simp [pyGenerate, pySeed]

theorem generate_deterministic_witness :
    (1 ≤ 4 ∧ 1 ≤ 2) ∧
      ((pyGenerate ⟨7, 9⟩ 4 2 0).1.1 = (pyGenerate ⟨0, 0⟩ 4 2 0).1.1 ∧
        (pyGenerate ⟨7, 9⟩ 4 2 0).1.2 = (pyGenerate ⟨0, 0⟩ 4 2 0).1.2) :=
  ⟨⟨by decide, by decide⟩, generate_deterministic ⟨7, 9⟩ ⟨0, 0⟩ 4 2 0 (by decide) (by decide)⟩

/-- C2.  Range bounds for every off-diagonal cell: same cluster gives
`distance ∈ [1,10]` and `flow ∈ [80,200]`; different clusters give
`distance ∈ [30 + cd*10, 30 + cd*10 + 19]` with
`cd = |cluster_of[i] - cluster_of[j]|`, and `flow ∈ [5,80] ∪ [120,220]`. -/
theorem generate_range_bounds (n c seed : Nat) (hn : 1 ≤ n) (hc : 1 ≤ c)
    (i j : Nat) (hi : i < n) (hj : j < n) (hij : i ≠ j) :
    (clusterOfIdx n c i = clusterOfIdx n c j →
      1 ≤ entry (generate n c seed).1 i j ∧ entry (generate n c seed).1 i j ≤ 10 ∧
      80 ≤ entry (generate n c seed).2 i j ∧ entry (generate n c seed).2 i j ≤ 200) ∧
    (clusterOfIdx n c i ≠ clusterOfIdx n c j →
      30 + ((clusterOfIdx n c i : Int) - (clusterOfIdx n c j : Int)).natAbs * 10 ≤
          entry (generate n c seed).1 i j ∧
      entry (generate n c seed).1 i j ≤
          30 + ((clusterOfIdx n c i : Int) - (clusterOfIdx n c j : Int)).natAbs * 10 + 19 ∧
      ((5 ≤ entry (generate n c seed).2 i j ∧ entry (generate n c seed).2 i j ≤ 80) ∨
        (120 ≤ entry (generate n c seed).2 i j ∧ entry (generate n c seed).2 i j ≤ 220))) := by
  obtain ⟨tD, htD⟩ := genMatFrom_entry (distCell (clusterOfIdx n c)) n ⟨seed, 0⟩ i j hi hj
  obtain ⟨tF, htF⟩ := genMatFrom_entry (flowCell (clusterOfIdx n c)) n
    (genMatFrom (distCell (clusterOfIdx n c)) n n 0 ⟨seed, 0⟩).2 i j hi hj
  rw [← generate_fst] at htD
  rw [← generate_snd] at htF
  constructor
  · intro hsame
    obtain ⟨hD1, hD2⟩ := distCell_same (clusterOfIdx n c) i j tD hij hsame
    obtain ⟨hF1, hF2⟩ := flowCell_same (clusterOfIdx n c) i j tF hij hsame
    rw [htD, htF]
    exact ⟨hD1, hD2, hF1, hF2⟩
  · intro hdiff
    obtain ⟨hD1, hD2⟩ := distCell_diff (clusterOfIdx n c) i j tD hij hdiff
    have hF := flowCell_diff (clusterOfIdx n c) i j tF hij hdiff
    rw [htD, htF]
    exact ⟨hD1, hD2, hF⟩

theorem generate_range_bounds_witness :
    (1 ≤ 4 ∧ 1 ≤ 2 ∧ 0 < 4 ∧ 1 < 4 ∧ (0 : Nat) ≠ 1) ∧
    ((clusterOfIdx 4 2 0 = clusterOfIdx 4 2 1 →
      1 ≤ entry (generate 4 2 0).1 0 1 ∧ entry (generate 4 2 0).1 0 1 ≤ 10 ∧
      80 ≤ entry (generate 4 2 0).2 0 1 ∧ entry (generate 4 2 0).2 0 1 ≤ 200) ∧
    (clusterOfIdx 4 2 0 ≠ clusterOfIdx 4 2 1 →
      30 + ((clusterOfIdx 4 2 0 : Int) - (clusterOfIdx 4 2 1 : Int)).natAbs * 10 ≤
          entry (generate 4 2 0).1 0 1 ∧
      entry (generate 4 2 0).1 0 1 ≤
          30 + ((clusterOfIdx 4 2 0 : Int) - (clusterOfIdx 4 2 1 : Int)).natAbs * 10 + 19 ∧
      ((5 ≤ entry (generate 4 2 0).2 0 1 ∧ entry (generate 4 2 0).2 0 1 ≤ 80) ∨
        (120 ≤ entry (generate 4 2 0).2 0 1 ∧ entry (generate 4 2 0).2 0 1 ≤ 220)))) :=
  ⟨⟨by decide, by decide, by decide, by decide, by decide⟩,
    generate_range_bounds 4 2 0 (by decide) (by decide) 0 1 (by decide) (by decide) (by decide)⟩

/-- C4.  Shape and diagonal: both matrices are `size × size` (each of the
`size` rows has exactly `size` entries), every entry is a non-negative
integer (the entries live in `ℕ`), and both diagonals are zero. -/
theorem generate_shape_diag (n c seed : Nat) (hn : 1 ≤ n) (hc : 1 ≤ c) :
    ((generate n c seed).1).length = n ∧
    (∀ row ∈ (generate n c seed).1, row.length = n) ∧
    ((generate n c seed).2).length = n ∧
    (∀ row ∈ (generate n c seed).2, row.length = n) ∧
    (∀ i j, 0 ≤ entry (generate n c seed).1 i j ∧ 0 ≤ entry (generate n c seed).2 i j) ∧
    (∀ i, i < n →
      entry (generate n c seed).1 i i = 0 ∧ entry (generate n c seed).2 i i = 0) := by
  refine ⟨?_, ?_, ?_, ?_, fun i j => ⟨Nat.zero_le _, Nat.zero_le _⟩, ?_⟩
  · rw [generate_fst]; exact genMatFrom_length _ _ _ _ _
  · rw [generate_fst]; exact genMatFrom_rows _ _ _ _ _
  · rw [generate_snd]; exact genMatFrom_length _ _ _ _ _
  · rw [generate_snd]; exact genMatFrom_rows _ _ _ _ _
  · intro i hi
    obtain ⟨tD, htD⟩ := genMatFrom_entry (distCell (clusterOfIdx n c)) n ⟨seed, 0⟩ i i hi hi
    obtain ⟨tF, htF⟩ := genMatFrom_entry (flowCell (clusterOfIdx n c)) n
      (genMatFrom (distCell (clusterOfIdx n c)) n n 0 ⟨seed, 0⟩).2 i i hi hi
    rw [← generate_fst] at htD
    rw [← generate_snd] at htF
    rw [htD, htF, distCell_diag, flowCell_diag]
    exact ⟨rfl, rfl⟩

theorem generate_shape_diag_witness :
    (1 ≤ 4 ∧ 1 ≤ 2) ∧
    (((generate 4 2 0).1).length = 4 ∧
    (∀ row ∈ (generate 4 2 0).1, row.length = 4) ∧
    ((generate 4 2 0).2).length = 4 ∧
    (∀ row ∈ (generate 4 2 0).2, row.length = 4) ∧
    (∀ i j, 0 ≤ entry (generate 4 2 0).1 i j ∧ 0 ≤ entry (generate 4 2 0).2 i j) ∧
    (∀ i, i < 4 →
      entry (generate 4 2 0).1 i i = 0 ∧ entry (generate 4 2 0).2 i i = 0)) :=
  ⟨⟨by decide, by decide⟩, generate_shape_diag 4 2 0 (by decide) (by decide)⟩

/-- C5.  Cluster assignment: the list built by the source satisfies
`cluster_of[i] = i * clusters / size` (integer division, i.e. the floor),
is monotonically non-decreasing in the index, and every id lies in
`[0, clusters - 1]`. -/
theorem cluster_of_spec (n c : Nat) (hn : 1 ≤ n) (hc : 1 ≤ c) :
    (cluster_of n c).length = n ∧
    (∀ i, i < n → (cluster_of n c).getD i 0 = i * c / n) ∧
    (∀ i j, i ≤ j → j < n → (cluster_of n c).getD i 0 ≤ (cluster_of n c).getD j 0) ∧
    (∀ i, i < n → (cluster_of n c).getD i 0 ≤ c - 1) := by
  have hlen : (cluster_of n c).length = n := by simp [cluster_of]
  have hget : ∀ i, i < n → (cluster_of n c).getD i 0 = i * c / n := by
    intro i hi
    have hi' : i < (cluster_of n c).length := by omega
    rw [List.getD_eq_getElem _ _ hi']
    simp [cluster_of, clusterOfIdx]
  refine ⟨hlen, hget, ?_, ?_⟩
  · intro i j hij hj
    rw [hget i (by omega), hget j hj]
    exact Nat.div_le_div_right (Nat.mul_le_mul_right c hij)
  · intro i hi
    rw [hget i hi]
    have hlt : i * c / n < c := by
      rw [Nat.div_lt_iff_lt_mul (by omega : 0 < n)]
      calc i * c < n * c := by
            exact Nat.mul_lt_mul_of_pos_right hi (by omega) |>.trans_le (Nat.le_refl _)
        _ = c * n := Nat.mul_comm n c
    omega

theorem cluster_of_spec_witness :
    (1 ≤ 4 ∧ 1 ≤ 2) ∧
    ((cluster_of 4 2).length = 4 ∧
    (∀ i, i < 4 → (cluster_of 4 2).getD i 0 = i * 2 / 4) ∧
    (∀ i j, i ≤ j → j < 4 → (cluster_of 4 2).getD i 0 ≤ (cluster_of 4 2).getD j 0) ∧
    (∀ i, i < 4 → (cluster_of 4 2).getD i 0 ≤ 2 - 1)) :=
  ⟨⟨by decide, by decide⟩, cluster_of_spec 4 2 (by decide) (by decide)⟩

/-- C9.  Separation invariant: every cross-cluster distance entry is at least
`40` (cluster distance `cd ≥ 1` gives base `30 + cd*10 ≥ 40`), every
within-cluster off-diagonal distance entry is at most `10`, so each
cross-cluster distance strictly exceeds each within-cluster distance of the
same generated matrix. -/
theorem generate_cluster_separation (n c seed : Nat) (hn : 1 ≤ n) (hc : 1 ≤ c)
    (i j i' j' : Nat) (hi : i < n) (hj : j < n) (hi' : i' < n) (hj' : j' < n)
    (hij : i ≠ j) (hij' : i' ≠ j')
    (hdiff : clusterOfIdx n c i ≠ clusterOfIdx n c j)
    (hsame : clusterOfIdx n c i' = clusterOfIdx n c j') :
    40 ≤ entry (generate n c seed).1 i j ∧
    entry (generate n c seed).1 i' j' ≤ 10 ∧
    entry (generate n c seed).1 i' j' < entry (generate n c seed).1 i j := by
  obtain ⟨hcross, _⟩ :=
    ((generate_range_bounds n c seed hn hc i j hi hj hij).2 hdiff)
  obtain ⟨_, hin2, _, _⟩ :=
    ((generate_range_bounds n c seed hn hc i' j' hi' hj' hij').1 hsame)
  have hcd : 1 ≤ ((clusterOfIdx n c i : Int) - (clusterOfIdx n c j : Int)).natAbs := by
    omega
  refine ⟨by omega, hin2, by omega⟩

theorem generate_cluster_separation_witness :
    (1 ≤ 4 ∧ 1 ≤ 2 ∧ 0 < 4 ∧ 2 < 4 ∧ 0 < 4 ∧ 1 < 4 ∧ (0 : Nat) ≠ 2 ∧ (0 : Nat) ≠ 1 ∧
      clusterOfIdx 4 2 0 ≠ clusterOfIdx 4 2 2 ∧ clusterOfIdx 4 2 0 = clusterOfIdx 4 2 1) ∧
    (40 ≤ entry (generate 4 2 0).1 0 2 ∧
    entry (generate 4 2 0).1 0 1 ≤ 10 ∧
    entry (generate 4 2 0).1 0 1 < entry (generate 4 2 0).1 0 2) :=
  ⟨⟨by decide, by decide, by decide, by decide, by decide, by decide, by decide, by decide,
      by decide, by decide⟩,
    generate_cluster_separation 4 2 0 (by decide) (by decide) 0 2 0 1
      (by decide) (by decide) (by decide) (by decide) (by decide) (by decide)
      (by decide) (by decide)⟩

/-- C10.  Edge-case totality: `generate` returns for the pathological inputs
the design document leaves unspecified.  With `size = 0` the loops are empty
(the cluster expression is never evaluated) and the result is a pair of empty
matrices; with `clusters = 0` every location lands in cluster `0`, so every
off-diagonal distance entry lies in `[1,10]` and every off-diagonal flow
entry in `[80,200]`. -/
theorem generate_edge_cases :
    (∀ c seed, generate 0 c seed = ([], [])) ∧
    (∀ n seed i j, 1 ≤ n → i < n → j < n → i ≠ j →
      clusterOfIdx n 0 i = 0 ∧
      1 ≤ entry (generate n 0 seed).1 i j ∧ entry (generate n 0 seed).1 i j ≤ 10 ∧
      80 ≤ entry (generate n 0 seed).2 i j ∧ entry (generate n 0 seed).2 i j ≤ 200) := by
  constructor
  · intro c seed
    simp [generate, pyGenerate, pySeed, genMatFrom]
  · intro n seed i j hn hi hj hij
    have hco : ∀ m : Nat, clusterOfIdx n 0 m = 0 := by
      intro m; simp [clusterOfIdx]
    obtain ⟨tD, htD⟩ := genMatFrom_entry (distCell (clusterOfIdx n 0)) n ⟨seed, 0⟩ i j hi hj
    obtain ⟨tF, htF⟩ := genMatFrom_entry (flowCell (clusterOfIdx n 0)) n
      (genMatFrom (distCell (clusterOfIdx n 0)) n n 0 ⟨seed, 0⟩).2 i j hi hj
    rw [← generate_fst] at htD
    rw [← generate_snd] at htF
    have hsame : clusterOfIdx n 0 i = clusterOfIdx n 0 j := by rw [hco, hco]
    obtain ⟨hD1, hD2⟩ := distCell_same (clusterOfIdx n 0) i j tD hij hsame
    obtain ⟨hF1, hF2⟩ := flowCell_same (clusterOfIdx n 0) i j tF hij hsame
    rw [htD, htF]
    exact ⟨hco i, hD1, hD2, hF1, hF2⟩

theorem generate_edge_cases_witness :
    (1 ≤ 2 ∧ 0 < 2 ∧ 1 < 2 ∧ (0 : Nat) ≠ 1) ∧
    (clusterOfIdx 2 0 0 = 0 ∧
      1 ≤ entry (generate 2 0 7).1 0 1 ∧ entry (generate 2 0 7).1 0 1 ≤ 10 ∧
      80 ≤ entry (generate 2 0 7).2 0 1 ∧ entry (generate 2 0 7).2 0 1 ≤ 200) :=
  ⟨⟨by decide, by decide, by decide, by decide⟩,
    generate_edge_cases.2 2 7 0 1 (by decide) (by decide) (by decide) (by decide)⟩

/-- C3 (counterexample).  The claim that the common branch of a cross-cluster
flow cell consumes exactly one PRNG draw is false: the probability draw
`random.random()` happens before the branch, so the common branch also
consumes two draws in total.  Concretely, the cell `(0, 2)` of the flow
matrix with clusters `clusterOfIdx 4 2`, evaluated from stream state
`⟨0, 0⟩`, takes the common branch (the probability draw is not below `0.05`)
yet advances the draw index from `0` to `2`, not `1`. -/
theorem flow_draw_count_counterexample :
    ¬rareFlow (pyRandom ⟨0, 0⟩).1 ∧
      (flowCell (clusterOfIdx 4 2) 0 2 ⟨0, 0⟩).2.idx = 2 ∧
      (flowCell (clusterOfIdx 4 2) 0 2 ⟨0, 0⟩).2.idx ≠ 0 + 1 := by
  refine ⟨by decide, by decide, by decide⟩

/-- C3 (amended).  Draw budget of a cross-cluster flow cell: the stream seed
is untouched, and both branches consume exactly two PRNG draws — the
probability draw plus one integer draw (`randint(120,220)` in the rare
heavy-linkage branch when `random.random() < 0.05`, `randint(5,80)` in the
common branch). -/
theorem flowCell_draw_count (co : Nat → Nat) (i j : Nat) (s : RandState)
    (hij : i ≠ j) (hc : co i ≠ co j) :
    (flowCell co i j s).2.seed = s.seed ∧
      (flowCell co i j s).2.idx = s.idx + 2 := by
  have hunf : flowCell co i j s =
      (if rareFlow (pyRandom s).1 then pyRandint 120 220 (pyRandom s).2
        else pyRandint 5 80 (pyRandom s).2) := by
    simp [flowCell, if_neg hij, if_neg hc]
  rw [hunf]
  by_cases hr : rareFlow (pyRandom s).1
  · rw [if_pos hr]
    refine ⟨rfl, ?_⟩
    simp [pyRandint, pyRandom]
  · rw [if_neg hr]
    refine ⟨rfl, ?_⟩
    simp [pyRandint, pyRandom]

theorem flowCell_draw_count_witness :
    ((0 : Nat) ≠ 3 ∧ clusterOfIdx 4 2 0 ≠ clusterOfIdx 4 2 3) ∧
    ((flowCell (clusterOfIdx 4 2) 0 3 ⟨5, 11⟩).2.seed = RandState.seed ⟨5, 11⟩ ∧
      (flowCell (clusterOfIdx 4 2) 0 3 ⟨5, 11⟩).2.idx = RandState.idx ⟨5, 11⟩ + 2) :=
  ⟨⟨by decide, by decide⟩,
    flowCell_draw_count (clusterOfIdx 4 2) 0 3 ⟨5, 11⟩ (by decide) (by decide)⟩

/-- C7 (counterexample).  The claimed interval `[30,49]` for
`distance[0][2]` of `generate(4, 2, 0)` is wrong: locations `0` and `2` sit
in clusters `0` and `1`, so the cell is drawn as `30 + 1*10 + randint(0,19)`,
which ranges over `[40,59]`; the reference stream actually produces `59`,
which lies outside `[30,49]`. -/
theorem concrete_scenario_interval_counterexample :
    entry (generate 4 2 0).1 0 2 = 59 ∧
      ¬(30 ≤ entry (generate 4 2 0).1 0 2 ∧ entry (generate 4 2 0).1 0 2 ≤ 49) := by
  constructor
  · decide
  · decide

/-- C7 (amended).  The concrete scenario `generate(4, 2, 0)`: the cluster
assignment is `[0,0,1,1]`; two calls (from arbitrary distinct ambient stream
states) yield identical matrices; `distance[0][0] = 0`; `distance[0][2]`
lies in `[40,59]` (the correct interval for cluster distance `1`);
`flow[0][1] ∈ [80,200]`; and `flow[0][2] ∈ [5,80] ∪ [120,220]`. -/
theorem concrete_scenario :
    cluster_of 4 2 = [0, 0, 1, 1] ∧
    (pyGenerate ⟨99, 57⟩ 4 2 0).1 = (pyGenerate ⟨0, 0⟩ 4 2 0).1 ∧
    entry (generate 4 2 0).1 0 0 = 0 ∧
    (40 ≤ entry (generate 4 2 0).1 0 2 ∧ entry (generate 4 2 0).1 0 2 ≤ 59) ∧
    (80 ≤ entry (generate 4 2 0).2 0 1 ∧ entry (generate 4 2 0).2 0 1 ≤ 200) ∧
    ((5 ≤ entry (generate 4 2 0).2 0 2 ∧ entry (generate 4 2 0).2 0 2 ≤ 80) ∨
      (120 ≤ entry (generate 4 2 0).2 0 2 ∧ entry (generate 4 2 0).2 0 2 ≤ 220)) := by
  refine ⟨by decide, by decide, by decide, by decide, by decide, ?_⟩
  left
  decide

/-- C8 (counterexample).  `generate` does not leave all state other than its
return value unchanged: it overwrites the module-global PRNG stream state.
Calling `generate(2, 1, 0)` with the global stream at `⟨5, 0⟩` leaves it at
`⟨0, 4⟩` (seeded to `0`, four draws consumed). -/
theorem generate_state_change_counterexample :
    (pyGenerate ⟨5, 0⟩ 2 1 0).2 ≠ ⟨5, 0⟩ ∧ (pyGenerate ⟨5, 0⟩ 2 1 0).2 = ⟨0, 4⟩ := by
  constructor
  · decide
  · decide

/-- C8 (amended).  `generate` is total on all inputs (the embedding returns a
value for every argument, so no exception is raised), performs no file write
or print (no such effect exists in its body — the only effectful construct it
touches is the PRNG stream), and the sole state it modifies is the
module-global PRNG stream, which it overwrites with a value depending only on
`(size, clusters, seed)`: the entire call result, final stream state
included, is independent of the ambient state `g`. -/
theorem generate_frame (g : RandState) (n c seed : Nat) :
    pyGenerate g n c seed = pyGenerate ⟨0, 0⟩ n c seed := by
  simp [pyGenerate, pySeed]

/-! ### Serialization (the `__main__` block) and a parser for the file format

The writer is embedded from the source: `str(n)` plus newline, then each of
the first `n` rows of `D` and then of `F` as space-joined decimal numbers,
each line newline-terminated.  Files are modelled as lists of characters. -/

/-- Decimal digit character for `d ≤ 9` (as produced by Python `str`). -/
def digitChar : Nat → Char
  | 0 => '0' | 1 => '1' | 2 => '2' | 3 => '3' | 4 => '4'
  | 5 => '5' | 6 => '6' | 7 => '7' | 8 => '8' | _ => '9'

/-- Decimal rendering of a natural number, most significant digit first:
the embedding of Python `str(x)` for the non-negative integers at hand. -/
def natToDigits (n : Nat) : List Char :=
  if h : n < 10 then [digitChar n]
  else natToDigits (n / 10) ++ [digitChar (n % 10)]
termination_by n
decreasing_by exact Nat.div_lt_self (by omega) (by omega)

/-- `sep.join(xs)`: the pieces joined with a single separator character. -/
def joinSep (sep : Char) : List (List Char) → List Char
  | [] => []
  | [x] => x
  | x :: y :: xs => x ++ sep :: joinSep sep (y :: xs)

/-- One output line body for a matrix row: `' '.join(str(x) for x in row)`. -/
def serializeRow (row : List Nat) : List Char := joinSep ' ' (row.map natToDigits)

/-- The file the `__main__` block writes: `str(n)` and a newline, then the
first `n` rows of `D`, then the first `n` rows of `F`, each row space-joined
and newline-terminated. -/
def serializeFile (n : Nat) (D F : List (List Nat)) : List Char :=
  natToDigits n ++ '\n' ::
    (((D.take n).map (fun r => serializeRow r ++ ['\n'])).flatten ++
      ((F.take n).map (fun r => serializeRow r ++ ['\n'])).flatten)

/-- Split a character list at every occurrence of `sep` (the pieces do not
contain `sep`; `k` separators yield `k + 1` pieces). -/
def splitOnChar (sep : Char) : List Char → List (List Char)
  | [] => [[]]
  | c :: cs =>
    if c = sep then [] :: splitOnChar sep cs
    else
      match splitOnChar sep cs with
      | [] => [[c]]
      | t :: ts => (c :: t) :: ts

/-- Is `c` a decimal digit? -/
def isDigitChar (c : Char) : Bool := decide (48 ≤ c.toNat) && decide (c.toNat ≤ 57)

/-- Numeric value of a digit character. -/
def digitVal (c : Char) : Nat := c.toNat - 48

/-- Modelled from the spec: the repository ships no reader for the instance
file, so the parser follows §6 of the design document — a nonempty all-digit
token denotes the written decimal number. -/
def parseNat (cs : List Char) : Option Nat :=
  if cs = [] then none
  else if cs.all isDigitChar then
    some (cs.foldl (fun a c => a * 10 + digitVal c) 0)
  else none

/-- Parse every element of a list, failing when any element fails. -/
def optionTraverse {α β : Type} (f : α → Option β) : List α → Option (List β)
  | [] => some []
  | x :: xs =>
    match f x, optionTraverse f xs with
    | some v, some vs => some (v :: vs)
    | _, _ => none

/-- Modelled from the spec: one matrix row, the space-separated integers of a
line. -/
def parseRow (cs : List Char) : Option (List Nat) :=
  optionTraverse parseNat (splitOnChar ' ' cs)

/-- Modelled from the spec: the instance-file reader.  Line 1 is `size`; the
next `size` newline-terminated lines are the distance rows, the next `size`
the flow rows, and nothing may follow the final newline. -/
def parseFile (cs : List Char) : Option (Nat × List (List Nat) × List (List Nat)) :=
  match splitOnChar '\n' cs with
  | [] => none
  | first :: rest =>
    match parseNat first with
    | none => none
    | some n =>
      if rest.length = 2 * n + 1 ∧ rest.drop (2 * n) = [[]] then
        match optionTraverse parseRow (rest.take n),
            optionTraverse parseRow ((rest.drop n).take n) with
        | some D, some F => some (n, D, F)
        | _, _ => none
      else none

/-! ### Round-trip lemmas -/

theorem digitChar_isDigit : ∀ d, d < 10 → isDigitChar (digitChar d) = true := by decide

theorem digitChar_val : ∀ d, d < 10 → digitVal (digitChar d) = d := by decide

theorem natToDigits_ne_nil (n : Nat) : natToDigits n ≠ [] := by
  rw [natToDigits]
  split
  · simp
  · simp

theorem natToDigits_digits (n : Nat) : ∀ c ∈ natToDigits n, isDigitChar c = true := by
  induction n using Nat.strong_induction_on with
  | _ n ih =>
    rw [natToDigits]
    split
    · next h =>
      intro c hc
      simp only [List.mem_singleton] at hc
      subst hc
      exact digitChar_isDigit n h
    · next h =>
      intro c hc
      rw [List.mem_append, List.mem_singleton] at hc
      rcases hc with hc | hc
      · exact ih (n / 10) (Nat.div_lt_self (by omega) (by omega)) c hc
      · subst hc
        exact digitChar_isDigit (n % 10) (Nat.mod_lt _ (by omega))

theorem natToDigits_foldl (n : Nat) : ∀ a : Nat,
    (natToDigits n).foldl (fun x c => x * 10 + digitVal c) a =
      a * 10 ^ (natToDigits n).length + n := by
  induction n using Nat.strong_induction_on with
  | _ n ih =>
    intro a
    rw [natToDigits]
    split
    · next h =>
      simp [digitChar_val n h]
    · next h =>
      rw [List.foldl_append, ih (n / 10) (Nat.div_lt_self (by omega) (by omega)) a]
      simp only [List.foldl_cons, List.foldl_nil, List.length_append,
        List.length_cons, List.length_nil, Nat.zero_add]
      rw [digitChar_val (n % 10) (by omega), pow_succ]
      have hdm : n / 10 * 10 + n % 10 = n := by omega
      calc (a * 10 ^ (natToDigits (n / 10)).length + n / 10) * 10 + n % 10
          = a * (10 ^ (natToDigits (n / 10)).length * 10) + (n / 10 * 10 + n % 10) := by
            ring
        _ = a * (10 ^ (natToDigits (n / 10)).length * 10) + n := by rw [hdm]

theorem parseNat_natToDigits (n : Nat) : parseNat (natToDigits n) = some n := by
  unfold parseNat
  rw [if_neg (natToDigits_ne_nil n)]
  have hall : (natToDigits n).all isDigitChar = true :=
    List.all_eq_true.mpr (fun c hc => natToDigits_digits n c hc)
  rw [if_pos hall, natToDigits_foldl n 0]
  simp

theorem splitOnChar_of_not_mem (sep : Char) :
    ∀ xs : List Char, sep ∉ xs → splitOnChar sep xs = [xs] := by
  intro xs
  induction xs with
  | nil => intro _; rfl
  | cons c cs ih =>
    intro h
    have hc : ¬(c = sep) := fun hc => h (hc ▸ List.mem_cons_self c cs)
    have h' : sep ∉ cs := fun hm => h (List.mem_cons_of_mem _ hm)
    simp only [splitOnChar, if_neg hc, ih h']

theorem splitOnChar_append (sep : Char) :
    ∀ (xs rest : List Char), sep ∉ xs →
      splitOnChar sep (xs ++ sep :: rest) = xs :: splitOnChar sep rest := by
  intro xs
  induction xs with
  | nil => intro rest _; simp [splitOnChar]
  | cons c cs ih =>
    intro rest h
    have hc : ¬(c = sep) := fun hc => h (hc ▸ List.mem_cons_self c cs)
    have h' : sep ∉ cs := fun hm => h (List.mem_cons_of_mem _ hm)
    simp only [List.cons_append, splitOnChar, List.append_eq, if_neg hc, ih rest h']

theorem mem_joinSep (sep : Char) :
    ∀ (xs : List (List Char)) (c : Char), c ∈ joinSep sep xs →
      c = sep ∨ ∃ x ∈ xs, c ∈ x := by
  intro xs
  induction xs with
  | nil => intro c hc; simp [joinSep] at hc
  | cons x t ih =>
    intro c hc
    cases t with
    | nil =>
      right
      exact ⟨x, List.mem_cons_self _ _, hc⟩
    | cons y t' =>
      simp only [joinSep, List.mem_append, List.mem_cons] at hc
      rcases hc with hc | hc | hc
      · right; exact ⟨x, List.mem_cons_self _ _, hc⟩
      · left; exact hc
      · rcases ih c hc with hc' | ⟨z, hz, hcz⟩
        · left; exact hc'
        · right; exact ⟨z, List.mem_cons_of_mem _ hz, hcz⟩

theorem nl_not_mem_natToDigits (n : Nat) : ('\n' : Char) ∉ natToDigits n := by
  intro h
  exact absurd (natToDigits_digits n _ h) (by decide)

theorem space_not_mem_natToDigits (n : Nat) : (' ' : Char) ∉ natToDigits n := by
  intro h
  exact absurd (natToDigits_digits n _ h) (by decide)

theorem nl_not_mem_serializeRow (row : List Nat) : ('\n' : Char) ∉ serializeRow row := by
  intro h
  rcases mem_joinSep ' ' (row.map natToDigits) '\n' h with hc | ⟨x, hx, hcx⟩
  · exact absurd hc (by decide)
  · rw [List.mem_map] at hx
    obtain ⟨m, _, rfl⟩ := hx
    exact nl_not_mem_natToDigits m hcx

theorem splitOnChar_joinSep (sep : Char) :
    ∀ xs : List (List Char), (∀ x ∈ xs, sep ∉ x) → xs ≠ [] →
      splitOnChar sep (joinSep sep xs) = xs := by
  intro xs
  induction xs with
  | nil => intro _ hne; exact absurd rfl hne
  | cons x t ih =>
    intro h _
    cases t with
    | nil => exact splitOnChar_of_not_mem sep x (h x (List.mem_cons_self _ _))
    | cons y t' =>
      show splitOnChar sep (x ++ sep :: joinSep sep (y :: t')) = _
      rw [splitOnChar_append sep x _ (h x (List.mem_cons_self _ _))]
      rw [ih (fun z hz => h z (List.mem_cons_of_mem _ hz)) (by simp)]

theorem splitOnChar_flatten (sep : Char) :
    ∀ (pieces : List (List Char)) (tail : List Char), (∀ p ∈ pieces, sep ∉ p) →
      splitOnChar sep (((pieces.map (fun p => p ++ [sep])).flatten) ++ tail) =
        pieces ++ splitOnChar sep tail := by
  intro pieces
  induction pieces with
  | nil => intro tail _; simp
  | cons p ps ih =>
    intro tail h
    have hstep : ((((p :: ps).map (fun p => p ++ [sep])).flatten) ++ tail) =
        p ++ sep :: (((ps.map (fun p => p ++ [sep])).flatten) ++ tail) := by
      simp
    rw [hstep, splitOnChar_append sep p _ (h p (List.mem_cons_self _ _)),
      ih tail (fun z hz => h z (List.mem_cons_of_mem _ hz))]
    rfl

theorem optionTraverse_map {α β : Type} (f : α → Option β) (g : β → α) :
    ∀ l : List β, (∀ b ∈ l, f (g b) = some b) →
      optionTraverse f (l.map g) = some l := by
  intro l
  induction l with
  | nil => intro _; rfl
  | cons b t ih =>
    intro h
    simp only [List.map_cons, optionTraverse, h b (List.mem_cons_self _ _),
      ih (fun z hz => h z (List.mem_cons_of_mem _ hz))]

theorem parseRow_serializeRow (row : List Nat) (h : row ≠ []) :
    parseRow (serializeRow row) = some row := by
  unfold parseRow serializeRow
  rw [splitOnChar_joinSep ' ' (row.map natToDigits) ?_ ?_]
  · exact optionTraverse_map parseNat natToDigits row
      (fun b _ => parseNat_natToDigits b)
  · intro x hx
    rw [List.mem_map] at hx
    obtain ⟨m, _, rfl⟩ := hx
    exact space_not_mem_natToDigits m
  · simpa using h

/-- Helper for C6: parsing the serialized file of any well-shaped matrix pair
recovers the triple exactly. -/
theorem parseFile_serializeFile (n : Nat) (D F : List (List Nat))
    (hD : D.length = n) (hF : F.length = n)
    (hDne : ∀ r ∈ D, r ≠ []) (hFne : ∀ r ∈ F, r ≠ []) :
    parseFile (serializeFile n D F) = some (n, D, F) := by
  have htakeD : D.take n = D := by rw [← hD]; exact List.take_length D
  have htakeF : F.take n = F := by rw [← hF]; exact List.take_length F
  have hrowD : ∀ p ∈ D.map serializeRow, ('\n' : Char) ∉ p := by
    intro p hp
    rw [List.mem_map] at hp
    obtain ⟨r, _, rfl⟩ := hp
    exact nl_not_mem_serializeRow r
  have hrowF : ∀ p ∈ F.map serializeRow, ('\n' : Char) ∉ p := by
    intro p hp
    rw [List.mem_map] at hp
    obtain ⟨r, _, rfl⟩ := hp
    exact nl_not_mem_serializeRow r
  have hmapD : D.map (fun r => serializeRow r ++ ['\n']) =
      (D.map serializeRow).map (fun p => p ++ ['\n']) := by
    rw [List.map_map]; rfl
  have hmapF : F.map (fun r => serializeRow r ++ ['\n']) =
      (F.map serializeRow).map (fun p => p ++ ['\n']) := by
    rw [List.map_map]; rfl
  have hBF : splitOnChar '\n' (((F.map serializeRow).map (fun p => p ++ ['\n'])).flatten) =
      F.map serializeRow ++ [[]] := by
    have h := splitOnChar_flatten '\n' (F.map serializeRow) [] hrowF
    simpa using h
  have hsplit : splitOnChar '\n' (serializeFile n D F) =
      natToDigits n :: (D.map serializeRow ++ (F.map serializeRow ++ [[]])) := by
    unfold serializeFile
    rw [htakeD, htakeF, splitOnChar_append '\n' _ _ (nl_not_mem_natToDigits n)]
    rw [hmapD, hmapF]
    rw [splitOnChar_flatten '\n' (D.map serializeRow) _ hrowD]
    rw [hBF]
  have hDlen' : (D.map serializeRow).length = n := by simp [hD]
  have hFlen' : (F.map serializeRow).length = n := by simp [hF]
  have hrest : (D.map serializeRow ++ (F.map serializeRow ++ [[]])).length = 2 * n + 1 := by
    simp only [List.length_append, List.length_cons, List.length_nil, hDlen', hFlen']
    omega
  have hdrop2n : (D.map serializeRow ++ (F.map serializeRow ++ [[]])).drop (2 * n) = [[]] := by
    have h1 : D.map serializeRow ++ (F.map serializeRow ++ [[]]) =
        (D.map serializeRow ++ F.map serializeRow) ++ [[]] := by
      rw [List.append_assoc]
    have h2 : (D.map serializeRow ++ F.map serializeRow).length = 2 * n := by
      simp only [List.length_append, hDlen', hFlen']
      omega
    rw [h1, ← h2, List.drop_left]
  have htake : (D.map serializeRow ++ (F.map serializeRow ++ [[]])).take n =
      D.map serializeRow := by
    rw [← hDlen', List.take_left]
  have hdropn : (D.map serializeRow ++ (F.map serializeRow ++ [[]])).drop n =
      F.map serializeRow ++ [[]] := by
    rw [← hDlen', List.drop_left]
  have htakeF' : (F.map serializeRow ++ [[]]).take n = F.map serializeRow := by
    rw [← hFlen', List.take_left]
  have hparseD : optionTraverse parseRow (D.map serializeRow) = some D :=
    optionTraverse_map parseRow serializeRow D
      (fun r hr => parseRow_serializeRow r (hDne r hr))
  have hparseF : optionTraverse parseRow (F.map serializeRow) = some F :=
    optionTraverse_map parseRow serializeRow F
      (fun r hr => parseRow_serializeRow r (hFne r hr))
  unfold parseFile
  rw [hsplit]
  simp only [parseNat_natToDigits, hrest, hdrop2n, htake, hdropn, htakeF',
    hparseD, hparseF, and_self, if_true]

/-- C6.  Serialization round-trip: the file the program writes for
`generate(n, clusters, seed)` — line 1 the size, then the `n` distance rows,
then the `n` flow rows, each line newline-terminated with nothing after the
final newline — parses back to exactly the size and the two matrices. -/
theorem serialize_roundtrip (n c seed : Nat) :
    parseFile (serializeFile n (generate n c seed).1 (generate n c seed).2) =
      some (n, (generate n c seed).1, (generate n c seed).2) := by
  have hDlen : ((generate n c seed).1).length = n := by
    rw [generate_fst]; exact genMatFrom_length _ _ _ _ _
  have hFlen : ((generate n c seed).2).length = n := by
    rw [generate_snd]; exact genMatFrom_length _ _ _ _ _
  have hDrows : ∀ r ∈ (generate n c seed).1, r.length = n := by
    rw [generate_fst]; exact genMatFrom_rows _ _ _ _ _
  have hFrows : ∀ r ∈ (generate n c seed).2, r.length = n := by
    rw [generate_snd]; exact genMatFrom_rows _ _ _ _ _
  refine parseFile_serializeFile n _ _ hDlen hFlen ?_ ?_
  · intro r hr heq
    have h1 := hDrows r hr
    have h2 : 0 < ((generate n c seed).1).length :=
      List.length_pos.mpr (List.ne_nil_of_mem hr)
    rw [heq] at h1
    simp at h1
    omega
  · intro r hr heq
    have h1 := hFrows r hr
    have h2 : 0 < ((generate n c seed).2).length :=
      List.length_pos.mpr (List.ne_nil_of_mem hr)
    rw [heq] at h1
    simp at h1
    omega

end QAPGen
